import Mathlib

/-!
# Verification of the Azure Architecture Visualization Dashboard core

Shallow embedding of the classification, relationship-graph and filtered-view
logic of `azure_dashboard_generator.py` (the JavaScript embedded in
`_get_html_template`) and of `categorize_resources` from
`azure_modern_png_generator.py`, together with proofs about the embedded
definitions.
-/

namespace AzureDash

/-- JSON-like values as they appear in a resource's `properties` attribute:
strings, numbers, booleans, null, objects (ordered key/value fields, as
iterated by JavaScript `for...in`), and arrays. -/
inductive JsonVal where
  | jstr (s : String)
  | jnum (n : Int)
  | jbool (b : Bool)
  | jnull
  | jobj (fields : List (String × JsonVal))
  | jarr (elems : List JsonVal)

/-- JavaScript `s.toLowerCase()` (ASCII range), computed on the character
list so that the kernel can evaluate it. -/
def toLowerStr (s : String) : String :=
  String.mk (s.data.map Char.toLower)

/-- JavaScript `s.startsWith(pre)`, computed on the character lists. -/
def startsWithStr (s pre : String) : Bool :=
  pre.data.isPrefixOf s.data

/-- One discovered resource, as consumed by the dashboard's JavaScript. -/
structure Resource where
  id : String
  type : String
  name : String
  resourceGroup : String
  location : String
  properties : Option JsonVal

/-- A directed edge of the topology graph, as pushed by `renderNetworkTopology`
(`edges.push({ from: r.id, to: resourceMap.get(val).id, arrows: 'to' })`). -/
structure Edge where
  fromId : String
  toId : String
deriving DecidableEq

mutual

/-- The string leaves collected from a value `obj[key]` by `scanProperties`:
a string value is itself a leaf; objects and arrays are recursed into;
numbers, booleans and null are skipped. -/
def valLeaves : JsonVal → List String
  | .jstr s => [s]
  | .jnum _ => []
  | .jbool _ => []
  | .jnull => []
  | .jobj fields => objLeaves fields
  | .jarr elems => arrLeaves elems

/-- Leaves of an object's fields, in field order (JavaScript `for...in`). -/
def objLeaves : List (String × JsonVal) → List String
  | [] => []
  | (_, v) :: rest => valLeaves v ++ objLeaves rest

/-- Leaves of an array's elements, in element order. -/
def arrLeaves : List JsonVal → List String
  | [] => []
  | v :: rest => valLeaves v ++ arrLeaves rest

end

/-- The string leaves visited by the top-level call `scanProperties(r.properties)`.
A `for...in` loop over a primitive string iterates its indices, yielding its
one-character substrings; over numbers, booleans, null and undefined it
iterates nothing. -/
def scanLeaves : JsonVal → List String
  | .jstr s => s.data.map (fun c => String.mk [c])
  | .jobj fields => objLeaves fields
  | .jarr elems => arrLeaves elems
  | _ => []

/-- All string leaves reachable from a resource's `properties`
(an absent `properties` contributes none). -/
def propLeaves (r : Resource) : List String :=
  match r.properties with
  | some v => scanLeaves v
  | none => []

/-! ## Type classifier of the dashboard (`getCategory`) -/

/-- The `serviceCategories` object of the dashboard, as an association list in
its declared (insertion) order. -/
def serviceCategories : List (String × String) :=
  [("Microsoft.Compute", "Compute"),
   ("Microsoft.Storage", "Storage"),
   ("Microsoft.DBforMySQL", "Database"),
   ("Microsoft.DBforPostgreSQL", "Database"),
   ("Microsoft.Sql", "Database"),
   ("Microsoft.Network", "Network"),
   ("Microsoft.Security", "Security"),
   ("Microsoft.Insights", "Monitoring"),
   ("Microsoft.OperationalInsights", "Monitoring"),
   ("Microsoft.Logic", "Integration"),
   ("Microsoft.ApiManagement", "Integration"),
   ("Microsoft.EventGrid", "Integration")]

/-- First rule of `rules` whose key is a prefix of `t` wins; otherwise the
catch-all `"Other"`. -/
def firstPrefixMatch : List (String × String) → String → String
  | [], _ => "Other"
  | (p, c) :: rest, t => if startsWithStr t p then c else firstPrefixMatch rest t

/-- `getCategory(type)` of the dashboard: iterate `serviceCategories` in
declared order, return the value of the first key with `type.startsWith(prefix)`,
else `"Other"`. Note: no lower-casing, the match is case-sensitive. -/
def getCategory (t : String) : String :=
  firstPrefixMatch serviceCategories t

/-- The categories the dashboard's cards can show. -/
def dashCategories : List String :=
  ["Compute", "Storage", "Database", "Network", "Security", "Monitoring",
   "Integration", "Other"]

/-! ## Type classifier of the PNG generator (`categorize_resources`) -/

/-- Python's `keyword in s` substring test on strings, via character lists. -/
def strContains (s pat : String) : Bool :=
  s.data.tails.any (fun t => pat.data.isPrefixOf t)

/-- The `type_mapping` dict of `categorize_resources`, in declared order. -/
def type_mapping : List (String × List String) :=
  [("compute", ["microsoft.compute", "microsoft.containerservice",
                "microsoft.containerinstance", "microsoft.web"]),
   ("storage", ["microsoft.storage"]),
   ("database", ["microsoft.sql", "microsoft.documentdb", "microsoft.dbformysql",
                 "microsoft.dbforpostgresql", "microsoft.cache"]),
   ("network", ["microsoft.network"]),
   ("security", ["microsoft.keyvault", "microsoft.security"]),
   ("analytics", ["microsoft.synapse", "microsoft.datafactory",
                  "microsoft.databricks", "microsoft.streamanalytics"]),
   ("ai_ml", ["microsoft.cognitiveservices", "microsoft.machinelearningservices"]),
   ("integration", ["microsoft.logic", "microsoft.servicebus",
                    "microsoft.eventgrid", "microsoft.eventhub"]),
   ("monitoring", ["microsoft.insights", "microsoft.operationalinsights"])]

/-- First rule any of whose keywords occurs as a substring of the (already
lower-cased) type wins; otherwise the catch-all `"other"` bucket. -/
def firstKeywordMatch : List (String × List String) → String → String
  | [], _ => "other"
  | (c, kws) :: rest, tl =>
      if kws.any (fun kw => strContains tl kw) then c else firstKeywordMatch rest tl

/-- The bucket `categorize_resources` files a resource type into: the type is
lower-cased once, then the rules of `type_mapping` are tried in declared order
with a substring test; the first match wins, else `"other"`. -/
def categorizeType (t : String) : String :=
  firstKeywordMatch type_mapping (toLowerStr t)

/-- The buckets of `categorize_resources` (its `categories` dict keys). -/
def pngCategories : List String :=
  ["compute", "storage", "database", "network", "security", "analytics",
   "ai_ml", "integration", "monitoring", "other"]

/-! ## Relationship graph builder (`renderNetworkTopology` / `scanProperties`) -/

/-- The global `resourceMap` lookup: `initializeDashboard` does
`resourceMap.set(r.id.toLowerCase(), r)` over all resources in order, so a
lookup returns the last resource whose lower-cased id equals the key. -/
def resourceLookup (all : List Resource) (key : String) : Option Resource :=
  all.foldl (fun acc r => if toLowerStr r.id = key then some r else acc) none

/-- Membership in `filteredResourceIds`, the set of lower-cased ids of the
resource list passed to `renderNetworkTopology`. -/
def hasId (res : List Resource) (val : String) : Bool :=
  res.any (fun r => toLowerStr r.id = val)

/-- The literal prefix required of a referencing property string. -/
def subsPrefix : String := "/subscriptions/"

/-- The edges pushed for one string leaf `s` of resource `r`'s properties:
with `val = s.toLowerCase()`, an edge `{from: r.id, to: resourceMap.get(val).id}`
is pushed exactly when `val` starts with `/subscriptions/`, `resourceMap` has
`val`, `val` is among the filtered ids, and `r.id.toLowerCase() !== val`. -/
def leafEdges (all filtered : List Resource) (r : Resource) (s : String) : List Edge :=
  if startsWithStr (toLowerStr s) subsPrefix then
    match resourceLookup all (toLowerStr s) with
    | some t =>
        if hasId filtered (toLowerStr s) then
          if toLowerStr r.id = toLowerStr s then [] else [⟨r.id, t.id⟩]
        else []
    | none => []
  else []

/-- All edges contributed by one resource: `scanProperties(r.properties)`. -/
def resourceEdges (all filtered : List Resource) (r : Resource) : List Edge :=
  (propLeaves r).flatMap (leafEdges all filtered r)

/-- The full edge list built by `renderNetworkTopology(filtered)`, with the
global `resourceMap` built from `all`. -/
def buildEdges (all filtered : List Resource) : List Edge :=
  filtered.flatMap (resourceEdges all filtered)

/-- The node ids pushed by `renderNetworkTopology`: one per resource, skipping
ids already added (the `addedNodes` set, exact string comparison). -/
def nodeIdsAux : List String → List Resource → List String
  | _, [] => []
  | seen, r :: rest =>
      if r.id ∈ seen then nodeIdsAux seen rest
      else r.id :: nodeIdsAux (r.id :: seen) rest

/-- Node ids of the rendered graph. -/
def nodeIds (res : List Resource) : List String :=
  nodeIdsAux [] res

/-! ## Security view (`renderSecurityView`) -/

/-- The resource type string filtered on by `renderSecurityView`. -/
def nsgType : String := "Microsoft.Network/networkSecurityGroups"

/-- JavaScript property access `v[k]` on an object value. -/
def getField : JsonVal → String → Option JsonVal
  | .jobj fields, k => (fields.find? (fun kv => kv.1 = k)).map (fun kv => kv.2)
  | _, _ => none

/-- `(nsg.properties.<k> || [])` for an array-valued rule-list field. -/
def arrField (r : Resource) (k : String) : List JsonVal :=
  match r.properties with
  | some p =>
      match getField p k with
      | some (.jarr l) => l
      | _ => []
  | none => []

/-- `nsg.properties.securityRules || []`. -/
def securityRules (r : Resource) : List JsonVal :=
  arrField r "securityRules"

/-- `nsg.properties.defaultSecurityRules || []`. -/
def defaultSecurityRules (r : Resource) : List JsonVal :=
  arrField r "defaultSecurityRules"

/-- The integer `rule.properties.priority` read by the sort comparator
(`0` stands in for a missing field; the theorems assume it present). -/
def rulePriority (rule : JsonVal) : Int :=
  match getField rule "properties" with
  | some props =>
      match getField props "priority" with
      | some (.jnum n) => n
      | _ => 0
  | none => 0

/-- Whether a rule really carries an integer `properties.priority`. -/
def hasIntPriority (rule : JsonVal) : Bool :=
  match getField rule "properties" with
  | some props =>
      match getField props "priority" with
      | some (.jnum _) => true
      | _ => false
  | none => false

/-- The rule's `name` field as a string (for observing rule order). -/
def ruleNameStr (rule : JsonVal) : String :=
  match getField rule "name" with
  | some (.jstr s) => s
  | _ => ""

/-- Comparator order of `rules.sort((a, b) => a.properties.priority - b.properties.priority)`. -/
def prioLE (a b : JsonVal) : Prop := rulePriority a ≤ rulePriority b

instance : DecidableRel prioLE := fun a b =>
  inferInstanceAs (Decidable (rulePriority a ≤ rulePriority b))

/-- The rule list displayed for one network security group:
`(securityRules || []).concat(defaultSecurityRules || [])` sorted ascending by
priority. ECMAScript 2019 requires `Array.prototype.sort` to be stable, which
insertion sort models. -/
def displayedRules (nsg : Resource) : List JsonVal :=
  List.insertionSort prioLE (securityRules nsg ++ defaultSecurityRules nsg)

/-- `renderSecurityView(resources)`: one card per resource of NSG type in the
given (filtered) list, carrying its name and its sorted rule list. -/
def securityView (resources : List Resource) : List (String × List JsonVal) :=
  (resources.filter (fun r => r.type = nsgType)).map
    (fun nsg => (nsg.name, displayedRules nsg))

/-! ## Filtered view engine (`applyFilters` and the render functions) -/

/-- Click-to-toggle of a category card: selecting the active category clears
the filter, selecting any other category activates it
(`activeFilters.category = (activeFilters.category === category) ? null : category`). -/
def toggle (active : Option String) (c : String) : Option String :=
  if active = some c then none else some c

/-- The filter applied by `applyFilters`:
`allResources.filter(r => !activeFilters.category || r.category === activeFilters.category)`,
where `r.category = getCategory(r.type)` was assigned at initialization. -/
def filteredResources (all : List Resource) (active : Option String) : List Resource :=
  all.filter (fun r =>
    match active with
    | none => true
    | some c => getCategory r.type = c)

/-- The derived views recomputed on every filter change: the header stats
(`renderStats`), the per-category card totals (`renderDashboardView`), the
resource table (`renderResourceExplorer`), the topology graph
(`renderNetworkTopology`) and the security view (`renderSecurityView`). -/
structure DerivedViews where
  statTotal : Nat
  statRGs : Nat
  statLocs : Nat
  cardTotal : String → Nat
  tableRows : List Resource
  graphNodes : List String
  graphEdges : List Edge
  nsgCards : List (String × List JsonVal)

/-- `applyFilters()`: computes the filtered resource list, then passes it to
`renderStats`, `renderResourceExplorer`, `renderNetworkTopology` and
`renderSecurityView`, while `renderDashboardView` receives `allResources`. -/
def applyFilters (all : List Resource) (active : Option String) : DerivedViews :=
  let filtered := filteredResources all active
  { statTotal := filtered.length
    statRGs := (filtered.map (fun r => r.resourceGroup)).dedup.length
    statLocs := (filtered.map (fun r => r.location)).dedup.length
    cardTotal := fun c => (all.filter (fun r => getCategory r.type = c)).length
    tableRows := filtered
    graphNodes := nodeIds filtered
    graphEdges := buildEdges all filtered
    nsgCards := securityView filtered }

/-! ## Lemmas about the graph builder -/

/-- A successful `resourceMap` lookup returns a resource of the collection
whose lower-cased id is the key. -/
theorem resourceLookup_eq_some {all : List Resource} {key : String} {t : Resource}
    (h : resourceLookup all key = some t) : t ∈ all ∧ toLowerStr t.id = key := by
  unfold resourceLookup at h
  suffices H : ∀ (l : List Resource) (acc : Option Resource),
      l.foldl (fun acc r => if toLowerStr r.id = key then some r else acc) acc = some t →
      (t ∈ l ∧ toLowerStr t.id = key) ∨ acc = some t by
    rcases H all none h with h' | h'
    · exact h'
    · cases h'
  intro l
  induction l with
  | nil => intro acc h; exact Or.inr h
  | cons r rest ih =>
      intro acc h
      simp only [List.foldl_cons] at h
      rcases ih _ h with h' | h'
      · exact Or.inl ⟨List.mem_cons_of_mem _ h'.1, h'.2⟩
      · by_cases hc : toLowerStr r.id = key
        · rw [if_pos hc] at h'
          cases h'
          exact Or.inl ⟨List.mem_cons_self .., hc⟩
        · rw [if_neg hc] at h'
          exact Or.inr h'

/-- If some resource of the collection has the given lower-cased id, the
lookup succeeds. -/
theorem resourceLookup_isSome_of_mem {all : List Resource} {t : Resource}
    (ht : t ∈ all) : (resourceLookup all (toLowerStr t.id)).isSome := by
  unfold resourceLookup
  suffices H : ∀ (l : List Resource) (acc : Option Resource),
      (t ∈ l ∨ acc.isSome) →
      (l.foldl (fun acc r => if toLowerStr r.id = toLowerStr t.id then some r else acc)
        acc).isSome from H all none (Or.inl ht)
  intro l
  induction l with
  | nil =>
      intro acc h
      rcases h with h | h
      · cases h
      · exact h
  | cons r rest ih =>
      intro acc h
      simp only [List.foldl_cons]
      apply ih
      by_cases hc : toLowerStr r.id = toLowerStr t.id
      · right; rw [if_pos hc]; rfl
      · rcases h with h | h
        · rcases List.mem_cons.1 h with rfl | h
          · exact absurd rfl hc
          · exact Or.inl h
        · right; rw [if_neg hc]; exact h

/-- `hasId` is membership of the value among the lower-cased ids. -/
theorem hasId_iff {res : List Resource} {val : String} :
    hasId res val = true ↔ ∃ r ∈ res, toLowerStr r.id = val := by
  unfold hasId
  simp [List.any_eq_true]

/-- Characterization of the edges pushed for a single string leaf. -/
theorem mem_leafEdges {all filtered : List Resource} {r : Resource} {s : String}
    {e : Edge} :
    e ∈ leafEdges all filtered r s ↔
      ∃ t, startsWithStr (toLowerStr s) subsPrefix = true ∧
        resourceLookup all (toLowerStr s) = some t ∧
        hasId filtered (toLowerStr s) = true ∧
        toLowerStr r.id ≠ toLowerStr s ∧
        e = ⟨r.id, t.id⟩ := by
  unfold leafEdges
  cases hl : resourceLookup all (toLowerStr s) with
  | none =>
      apply iff_of_false
      · intro h
        by_cases h1 : startsWithStr (toLowerStr s) subsPrefix
        · rw [if_pos h1] at h
          exact List.not_mem_nil e h
        · rw [if_neg h1] at h
          exact List.not_mem_nil e h
      · rintro ⟨t, -, ht, -⟩
        cases ht
  | some t0 =>
      by_cases h1 : startsWithStr (toLowerStr s) subsPrefix
      · rw [if_pos h1]
        show e ∈ (if hasId filtered (toLowerStr s) = true then
            if toLowerStr r.id = toLowerStr s then [] else [Edge.mk r.id t0.id]
          else []) ↔ _
        by_cases h2 : hasId filtered (toLowerStr s) = true
        · rw [if_pos h2]
          by_cases h3 : toLowerStr r.id = toLowerStr s
          · rw [if_pos h3]
            apply iff_of_false (List.not_mem_nil e)
            rintro ⟨t, -, -, -, h3', -⟩
            exact h3' h3
          · rw [if_neg h3]
            constructor
            · intro h
              rcases List.mem_singleton.1 h with rfl
              exact ⟨t0, h1, rfl, h2, h3, rfl⟩
            · rintro ⟨t, -, ht, -, -, rfl⟩
              cases ht
              exact List.mem_singleton.2 rfl
        · rw [if_neg h2]
          apply iff_of_false (List.not_mem_nil e)
          rintro ⟨t, -, -, h2', -⟩
          exact h2 h2'
      · rw [if_neg h1]
        apply iff_of_false (List.not_mem_nil e)
        rintro ⟨t, h1', -⟩
        exact h1 h1'

/-- Characterization of the full edge list: an edge is present iff some
resource of the rendered list has a string leaf that produces it. -/
theorem mem_buildEdges {all filtered : List Resource} {e : Edge} :
    e ∈ buildEdges all filtered ↔
      ∃ r ∈ filtered, ∃ s ∈ propLeaves r, e ∈ leafEdges all filtered r s := by
  unfold buildEdges resourceEdges
  simp [List.mem_flatMap]

/-- Every resource of the rendered list contributes its id to the node list. -/
theorem mem_nodeIds {res : List Resource} {r : Resource} (h : r ∈ res) :
    r.id ∈ nodeIds res := by
  unfold nodeIds
  suffices H : ∀ (l : List Resource) (seen : List String),
      r ∈ l → r.id ∈ seen ∨ r.id ∈ nodeIdsAux seen l by
    rcases H res [] h with h' | h'
    · cases h'
    · exact h'
  intro l
  induction l with
  | nil => intro seen h; cases h
  | cons x rest ih =>
      intro seen h
      rcases List.mem_cons.1 h with rfl | h
      · by_cases hx : r.id ∈ seen
        · exact Or.inl hx
        · right
          unfold nodeIdsAux
          rw [if_neg hx]
          exact List.mem_cons_self ..
      · unfold nodeIdsAux
        by_cases hx : x.id ∈ seen
        · rw [if_pos hx]
          exact ih seen h
        · rw [if_neg hx]
          rcases ih (x.id :: seen) h with h' | h'
          · rcases List.mem_cons.1 h' with h'' | h''
            · right; rw [h'']; exact List.mem_cons_self ..
            · exact Or.inl h''
          · right; exact List.mem_cons_of_mem _ h'

/-- When the exact ids of the rendered list are pairwise distinct, the node
list is exactly the list of ids in order. -/
theorem nodeIds_of_nodup {res : List Resource}
    (h : (res.map (fun r => r.id)).Nodup) :
    nodeIds res = res.map (fun r => r.id) := by
  unfold nodeIds
  suffices H : ∀ (l : List Resource) (seen : List String),
      (l.map (fun r => r.id)).Nodup → (∀ r ∈ l, r.id ∉ seen) →
      nodeIdsAux seen l = l.map (fun r => r.id) from
    H res [] h (fun r _ hc => (List.not_mem_nil _ hc))
  intro l
  induction l with
  | nil => intro seen _ _; rfl
  | cons x rest ih =>
      intro seen hnd hs
      unfold nodeIdsAux
      rw [if_neg (hs x (List.mem_cons_self ..))]
      simp only [List.map_cons, List.nodup_cons] at hnd ⊢
      congr 1
      apply ih (x.id :: seen) hnd.2
      intro r hr hc
      rcases List.mem_cons.1 hc with hc | hc
      · exact hnd.1 (hc ▸ List.mem_map_of_mem _ hr)
      · exact hs r (List.mem_cons_of_mem _ hr) hc

/-! ## Claim C7: no self-loops -/

/-- A resource that references itself (by id, in a different letter case) and
also a second resource — for exercising the self-loop guard. -/
def c7ra : Resource :=
  ⟨"/subscriptions/wa", "T", "wa", "g", "l",
    some (.jobj [("self", .jstr "/Subscriptions/WA"), ("ref", .jstr "/Subscriptions/WT")])⟩

/-- The second resource of the C7 example collection. -/
def c7rt : Resource := ⟨"/subscriptions/wt", "T", "wt", "g", "l", none⟩

/-- The C7 example collection. -/
def c7All : List Resource := [c7ra, c7rt]

/-- C7: For every input resource collection (and every rendered sub-list), the
built graph contains no self-loop: no pushed edge has `from` equal to `to`,
even when a resource's own metadata references its own identifier compared
case-insensitively — the guard `r.id.toLowerCase() !== val` together with the
fact that `resourceMap.get(val)` returns a resource whose lower-cased id is
`val` rules it out. -/
theorem built_graph_has_no_self_loops
    (all filtered : List Resource) (e : Edge)
    (he : e ∈ buildEdges all filtered) : e.fromId ≠ e.toId := by
  rcases mem_buildEdges.1 he with ⟨r, -, s, -, hle⟩
  rcases mem_leafEdges.1 hle with ⟨t, -, hlk, -, hne, rfl⟩
  show r.id ≠ t.id
  intro heq
  exact hne (by rw [heq, (resourceLookup_eq_some hlk).2])

/-- Witness for C7 at a concrete collection (which even contains a
case-insensitive self-reference): the reference `c7ra → c7rt` is a real edge
of the built graph, and it is not a self-loop. -/
theorem built_graph_has_no_self_loops_witness :
    Edge.mk "/subscriptions/wa" "/subscriptions/wt" ∈ buildEdges c7All c7All ∧
      (Edge.mk "/subscriptions/wa" "/subscriptions/wt").fromId ≠
        (Edge.mk "/subscriptions/wa" "/subscriptions/wt").toId :=
  ⟨by decide, built_graph_has_no_self_loops c7All c7All _ (by decide)⟩

/-! ## Claim C1: which string leaves produce an edge -/

/-- A resource whose properties contain the string `"Y"`, which is another
resource's id up to case — but does not start with `/subscriptions/`. -/
def c1rx : Resource := ⟨"x", "T", "x", "g", "l", some (.jobj [("ref", .jstr "Y")])⟩

/-- The referenced resource of the C1 counterexample collection. -/
def c1ry : Resource := ⟨"y", "T", "y", "g", "l", none⟩

/-- The C1 counterexample collection. -/
def c1All : List Resource := [c1rx, c1ry]

/-- C1 as stated is false: `"Y"` is a string leaf of `c1rx.properties`, its
lower-casing `"y"` is a key of the identifier index and differs from
`c1rx`'s own id, yet the built graph contains no edge `("x", "y")` (indeed no
edge at all), because `scanProperties` additionally requires the leaf to start
with `/subscriptions/`. -/
theorem leaf_matching_id_without_prefix_gives_no_edge :
    "Y" ∈ propLeaves c1rx ∧
      (resourceLookup c1All (toLowerStr "Y")).isSome = true ∧
      toLowerStr "Y" ≠ toLowerStr c1rx.id ∧
      Edge.mk "x" "y" ∉ buildEdges c1All c1All ∧
      buildEdges c1All c1All = [] := by
  refine ⟨by decide, by decide, by decide, by decide, by decide⟩

/-- C1 (amended): a string leaf produces the edge when, in addition to the
claim's conditions, its lower-casing starts with `/subscriptions/`: for every
resource `r` of the collection and every string leaf `s` of `r.properties`, if
`s.toLowerCase()` starts with `/subscriptions/`, the identifier index maps it
to a resource `t`, and it differs from `r`'s own lower-cased id, then the full
graph (built over the whole collection) contains the edge `(r.id, t.id)`; the
leaf may reference the id in any letter case. -/
theorem edge_emitted_for_prefixed_reference
    (all : List Resource) (r t : Resource) (s : String)
    (hr : r ∈ all) (hs : s ∈ propLeaves r)
    (hpre : startsWithStr (toLowerStr s) subsPrefix = true)
    (hlk : resourceLookup all (toLowerStr s) = some t)
    (hself : toLowerStr r.id ≠ toLowerStr s) :
    Edge.mk r.id t.id ∈ buildEdges all all := by
  apply mem_buildEdges.2
  refine ⟨r, hr, s, hs, mem_leafEdges.2 ⟨t, hpre, hlk, ?_, hself, rfl⟩⟩
  rcases resourceLookup_eq_some hlk with ⟨htmem, htid⟩
  exact hasId_iff.2 ⟨t, htmem, htid⟩

/-- Witness for the amended C1 at a concrete collection in which the
referencing string differs in case from the referenced id. -/
theorem edge_emitted_for_prefixed_reference_witness :
    c7ra ∈ c7All ∧ "/Subscriptions/WT" ∈ propLeaves c7ra ∧
      Edge.mk "/subscriptions/wa" "/subscriptions/wt" ∈ buildEdges c7All c7All := by
  refine ⟨List.mem_cons_self .., by decide, ?_⟩
  have h := edge_emitted_for_prefixed_reference c7All c7ra c7rt "/Subscriptions/WT"
    (List.mem_cons_self ..) (by decide) (by decide) rfl (by decide)
  exact h

/-! ## Claim C10: edges only arise from `/subscriptions/`-prefixed leaves -/

/-- C10, per leaf: an edge is emitted for a string leaf only if that very
leaf's lower-casing begins with the literal prefix `/subscriptions/`: a leaf
whose emission list contains an edge is prefixed, an unprefixed leaf emits
nothing — even one equal, case-insensitively, to another resource's id — and
every edge of the built graph is produced by a prefixed leaf of its `from`
resource. -/
theorem edges_require_subscriptions_prefix
    (all filtered : List Resource) (r : Resource) (s : String) (e : Edge) :
    (e ∈ leafEdges all filtered r s →
      startsWithStr (toLowerStr s) subsPrefix = true) ∧
    (startsWithStr (toLowerStr s) subsPrefix = false →
      leafEdges all filtered r s = []) ∧
    (e ∈ buildEdges all filtered →
      ∃ r0 ∈ filtered, ∃ s0 ∈ propLeaves r0,
        startsWithStr (toLowerStr s0) subsPrefix = true ∧
        e ∈ leafEdges all filtered r0 s0 ∧ e.fromId = r0.id) := by
  refine ⟨?_, ?_, ?_⟩
  · intro hle
    rcases mem_leafEdges.1 hle with ⟨t, hpre, -⟩
    exact hpre
  · intro h
    unfold leafEdges
    rw [h]
    rfl
  · intro he
    rcases mem_buildEdges.1 he with ⟨r0, hr0, s0, hs0, hle⟩
    rcases mem_leafEdges.1 hle with ⟨t, hpre, -, -, -, heq⟩
    exact ⟨r0, hr0, s0, hs0, hpre, hle, by rw [heq]⟩

/-- Witness for C10: the prefixed leaf `"/Subscriptions/WT"` of `c7ra` emits a
real edge and the theorem certifies its prefix; the unprefixed leaf `"Y"` of
`c1rx` — which matches resource id `"y"` case-insensitively — emits no edge. -/
theorem edges_require_subscriptions_prefix_witness :
    (Edge.mk "/subscriptions/wa" "/subscriptions/wt" ∈
        leafEdges c7All c7All c7ra "/Subscriptions/WT" ∧
      startsWithStr (toLowerStr "/Subscriptions/WT") subsPrefix = true) ∧
    (startsWithStr (toLowerStr "Y") subsPrefix = false ∧
      (resourceLookup c1All (toLowerStr "Y")).isSome = true ∧
      leafEdges c1All c1All c1rx "Y" = []) :=
  ⟨⟨by decide,
    ( edges_require_subscriptions_prefix c7All c7All c7ra "/Subscriptions/WT"
      (Edge.mk "/subscriptions/wa" "/subscriptions/wt")).1 (by decide)⟩,
   by decide, by decide,
    ( edges_require_subscriptions_prefix c1All c1All c1rx "Y"
      (Edge.mk "x" "y")).2.1 (by decide)⟩

/-! ## Claim C9: missing or empty properties give a node and no edges -/

/-- A resource with absent `properties` for the C9 witness. -/
def c9r : Resource := ⟨"/subscriptions/only", "T", "only", "g", "l", none⟩

/-- The C9 witness collection. -/
def c9All : List Resource := [c9r]

/-- C9: a resource whose `properties` is missing or an empty mapping
contributes no edges of its own to the built graph — the `scanProperties`
traversal visits no string leaf — but its id is still pushed as a node; this
is not an error case. -/
theorem empty_properties_yield_node_without_edges
    (all filtered : List Resource) (r : Resource)
    (hr : r ∈ filtered)
    (hp : r.properties = none ∨ r.properties = some (.jobj [])) :
    resourceEdges all filtered r = [] ∧ r.id ∈ nodeIds filtered := by
  refine ⟨?_, mem_nodeIds hr⟩
  unfold resourceEdges propLeaves
  rcases hp with hp | hp <;> rw [hp] <;> rfl

/-- Witness for C9: a collection whose only resource has no `properties`. -/
theorem empty_properties_yield_node_without_edges_witness :
    resourceEdges c9All c9All c9r = [] ∧ c9r.id ∈ nodeIds c9All :=
  empty_properties_yield_node_without_edges c9All c9All c9r
    (List.mem_cons_self ..) (Or.inl rfl)

/-! ## Claim C3: edges are pushed once per referencing leaf, without dedup -/

/-- A resource two of whose properties reference the same target id. -/
def c3src : Resource :=
  ⟨"a", "T", "a", "g", "l",
    some (.jobj [("p", .jstr "/subscriptions/t"), ("q", .jstr "/subscriptions/t")])⟩

/-- The referenced target resource. -/
def c3tgt : Resource := ⟨"/subscriptions/t", "T", "t", "g", "l", none⟩

/-- The C3 counterexample collection. -/
def c3All : List Resource := [c3src, c3tgt]

/-- C3 as stated is false: `edges.push` is never deduplicated, so a resource
with two distinct properties referencing the same target contributes the
ordered pair `("a", "/subscriptions/t")` twice to the edge list. -/
theorem duplicate_references_duplicate_edges :
    (buildEdges c3All c3All).count (Edge.mk "a" "/subscriptions/t") = 2 := by
  decide

/-- A source resource with `k` array entries all referencing the same target. -/
def multiSrc (k : Nat) : Resource :=
  ⟨"a", "T", "a", "g", "l",
    some (.jobj [("refs", .jarr (List.replicate k (.jstr "/subscriptions/t")))])⟩

/-- The collection of the C3 amended theorem: the multi-referencing source
plus its target. -/
def multiColl (k : Nat) : List Resource := [multiSrc k, c3tgt]

/-- Leaves of `k` copies of the same string value. -/
theorem arrLeaves_replicate (k : Nat) (s : String) :
    arrLeaves (List.replicate k (.jstr s)) = List.replicate k s := by
  induction k with
  | zero => rfl
  | succ k ih =>
      rw [List.replicate_succ, List.replicate_succ, ← ih]
      rfl

/-- Counting the results of mapping one leaf `k` times. -/
theorem count_flatMap_replicate (f : String → List Edge) (s : String) (e : Edge)
    (hf : f s = [e]) (k : Nat) :
    ((List.replicate k s).flatMap f).count e = k := by
  induction k with
  | zero => rfl
  | succ k ih =>
      rw [List.replicate_succ, List.flatMap_cons, List.count_append, hf, ih]
      simp [List.count_singleton, Nat.add_comm]

/-- C3 (amended): the built edge list contains one entry per matching string
leaf and is not deduplicated — a source resource with `k` properties
referencing the same target id contributes exactly `k` copies of the ordered
pair to the edge list (`k = 2` instantiates the counterexample). -/
theorem edge_multiplicity_equals_reference_count (k : Nat) :
    (buildEdges (multiColl k) (multiColl k)).count (Edge.mk "a" "/subscriptions/t")
      = k := by
  have hleaf : propLeaves (multiSrc k) = List.replicate k "/subscriptions/t" := by
    show objLeaves _ = _
    unfold objLeaves
    rw [show valLeaves (.jarr (List.replicate k (.jstr "/subscriptions/t")))
          = arrLeaves (List.replicate k (.jstr "/subscriptions/t")) from rfl,
      arrLeaves_replicate]
    rw [show objLeaves [] = [] from rfl, List.append_nil]
  have hedge : leafEdges (multiColl k) (multiColl k) (multiSrc k) "/subscriptions/t"
      = [Edge.mk "a" "/subscriptions/t"] := rfl
  show ((resourceEdges (multiColl k) (multiColl k) (multiSrc k) ++
      (resourceEdges (multiColl k) (multiColl k) c3tgt ++ [])).count _) = k
  rw [show resourceEdges (multiColl k) (multiColl k) c3tgt = [] from rfl]
  rw [List.append_nil, List.append_nil]
  unfold resourceEdges
  rw [hleaf]
  exact count_flatMap_replicate _ _ _ hedge k

/-! ## Claim C6: the filtered graph projection -/

/-- Two distinct resources of a collection with case-insensitively unique ids
cannot share a lower-cased id. -/
theorem lowerId_inj {all : List Resource}
    (hnd : (all.map (fun r => toLowerStr r.id)).Nodup)
    {a b : Resource} (ha : a ∈ all) (hb : b ∈ all)
    (h : toLowerStr a.id = toLowerStr b.id) : a = b :=
  List.inj_on_of_nodup_map hnd ha hb h

/-- C6: with case-insensitively unique ids (the data-model invariant), the
projection rendered for a filter state has exactly the filtered resources as
nodes, and an edge belongs to the projection iff it belongs to the full graph
and both of its endpoints are ids of filtered resources; an edge with either
endpoint filtered out is hidden. -/
theorem graph_projection_nodes_and_edges
    (all : List Resource) (active : Option String) (e : Edge)
    (hnd : (all.map (fun r => toLowerStr r.id)).Nodup) :
    nodeIds (filteredResources all active) =
      (filteredResources all active).map (fun r => r.id) ∧
    (e ∈ buildEdges all (filteredResources all active) ↔
      e ∈ buildEdges all all ∧
        e.fromId ∈ (filteredResources all active).map (fun r => r.id) ∧
        e.toId ∈ (filteredResources all active).map (fun r => r.id)) := by
  set filtered := filteredResources all active with hf
  have hsub : List.Sublist filtered all := List.filter_sublist _
  have hmem : ∀ ⦃r⦄, r ∈ filtered → r ∈ all := fun r h => hsub.subset h
  have hndf : (filtered.map (fun r => toLowerStr r.id)).Nodup :=
    (hnd.sublist (hsub.map _))
  have hndid : (filtered.map (fun r => r.id)).Nodup := by
    apply List.Nodup.of_map toLowerStr
    rw [List.map_map]
    exact hndf
  refine ⟨nodeIds_of_nodup hndid, ?_, ?_⟩
  · intro he
    rcases mem_buildEdges.1 he with ⟨r, hr, s, hs, hle⟩
    rcases mem_leafEdges.1 hle with ⟨t, hpre, hlk, hhas, hne, rfl⟩
    rcases resourceLookup_eq_some hlk with ⟨htall, htid⟩
    rcases hasId_iff.1 hhas with ⟨t', ht'f, ht'id⟩
    have ht'eq : t' = t := lowerId_inj hnd (hmem ht'f) htall (by rw [ht'id, htid])
    refine ⟨?_, ?_, ?_⟩
    · exact mem_buildEdges.2 ⟨r, hmem hr, s, hs,
        mem_leafEdges.2 ⟨t, hpre, hlk, hasId_iff.2 ⟨t, htall, htid⟩, hne, rfl⟩⟩
    · exact List.mem_map_of_mem _ hr
    · exact List.mem_map_of_mem _ (ht'eq ▸ ht'f)
  · rintro ⟨he, hfrom, hto⟩
    rcases mem_buildEdges.1 he with ⟨r, hr, s, hs, hle⟩
    rcases mem_leafEdges.1 hle with ⟨t, hpre, hlk, -, hne, rfl⟩
    rcases resourceLookup_eq_some hlk with ⟨htall, htid⟩
    rcases List.mem_map.1 hfrom with ⟨r', hr'f, hr'id⟩
    rcases List.mem_map.1 hto with ⟨t', ht'f, ht'id⟩
    have hreq : r' = r := lowerId_inj hnd (hmem hr'f) hr (by rw [hr'id])
    have hteq : t' = t := lowerId_inj hnd (hmem ht'f) htall (by rw [ht'id])
    exact mem_buildEdges.2 ⟨r, hreq ▸ hr'f, s, hs,
      mem_leafEdges.2 ⟨t, hpre, hlk,
        hasId_iff.2 ⟨t, (hteq ▸ ht'f : t ∈ filtered), htid⟩, hne, rfl⟩⟩

/-- A Network resource referencing another Network resource and a Storage
resource, for the C6 witness. -/
def c6n1 : Resource :=
  ⟨"/subscriptions/n1", "Microsoft.Network/virtualNetworks", "n1", "g", "l",
    some (.jobj [("peer", .jstr "/subscriptions/n2"), ("disk", .jstr "/subscriptions/s1")])⟩

/-- The referenced Network resource of the C6 witness. -/
def c6n2 : Resource :=
  ⟨"/subscriptions/n2", "Microsoft.Network/virtualNetworks", "n2", "g", "l", none⟩

/-- The referenced Storage resource of the C6 witness (filtered out). -/
def c6s1 : Resource :=
  ⟨"/subscriptions/s1", "Microsoft.Storage/storageAccounts", "s1", "g", "l", none⟩

/-- The C6 witness collection. -/
def c6All : List Resource := [c6n1, c6n2, c6s1]

/-- Witness for C6 with the `Network` filter active: the full graph has the
edge to the Storage account, the projection keeps only the Network-to-Network
edge, as the theorem's equivalence states at this input. -/
theorem graph_projection_nodes_and_edges_witness :
    (c6All.map (fun r => toLowerStr r.id)).Nodup ∧
      (nodeIds (filteredResources c6All (some "Network")) =
        (filteredResources c6All (some "Network")).map (fun r => r.id) ∧
      (Edge.mk "/subscriptions/n1" "/subscriptions/s1" ∈
          buildEdges c6All (filteredResources c6All (some "Network")) ↔
        Edge.mk "/subscriptions/n1" "/subscriptions/s1" ∈ buildEdges c6All c6All ∧
          (Edge.mk "/subscriptions/n1" "/subscriptions/s1").fromId ∈
            (filteredResources c6All (some "Network")).map (fun r => r.id) ∧
          (Edge.mk "/subscriptions/n1" "/subscriptions/s1").toId ∈
            (filteredResources c6All (some "Network")).map (fun r => r.id))) :=
  ⟨by decide,
    graph_projection_nodes_and_edges c6All (some "Network")
      (Edge.mk "/subscriptions/n1" "/subscriptions/s1") (by decide)⟩

/-! ## Claim C8: click-to-toggle is an involution back to the empty filter -/

/-- C8: clicking category `c`'s card when `c` is already active clears the
filter (`toggle (some c) c = none`), so clicking `c` twice starting from the
never-filtered state ends in the empty filter state and reproduces, field for
field, the derived views of the never-filtered dashboard. -/
theorem toggle_twice_restores_unfiltered_views (all : List Resource) (c : String) :
    toggle (some c) c = none ∧
      toggle (toggle none c) c = none ∧
      applyFilters all (toggle (toggle none c) c) = applyFilters all none := by
  have h1 : toggle (some c) c = none := by
    unfold toggle
    rw [if_pos rfl]
  have h0 : toggle none c = some c := by
    unfold toggle
    rw [if_neg (by simp)]
  refine ⟨h1, ?_, ?_⟩
  · rw [h0, h1]
  · rw [h0, h1]

/-! ## Claim C5: card totals ignore the filter, header stats respect it -/

/-- C5: for every collection and filter state, each category card's total is
the one computed over the full unfiltered collection (`renderDashboardView`
always receives `allResources`), while the header counts — visible resources,
distinct resource groups, distinct locations — are computed over the filtered
list only (`renderStats` receives `filteredResources`). The card totals of the
categories present sum to the full resource count whatever the filter. -/
theorem card_totals_unfiltered_stats_filtered
    (all : List Resource) (active : Option String) (c : String) :
    (applyFilters all active).cardTotal c = (applyFilters all none).cardTotal c ∧
    (applyFilters all active).statTotal = (filteredResources all active).length ∧
    (applyFilters all active).statRGs =
      ((filteredResources all active).map (fun r => r.resourceGroup)).dedup.length ∧
    (applyFilters all active).statLocs =
      ((filteredResources all active).map (fun r => r.location)).dedup.length ∧
    ((all.map (fun r => getCategory r.type)).dedup.map
        (fun c0 => (applyFilters all active).cardTotal c0)).sum = all.length := by
  refine ⟨rfl, rfl, rfl, rfl, ?_⟩
  have hcount : ∀ c0 : String, (applyFilters all active).cardTotal c0 =
      (all.map (fun r => getCategory r.type)).count c0 := by
    intro c0
    show (all.filter (fun r => getCategory r.type = c0)).length = _
    rw [List.count_eq_countP, List.countP_map]
    rw [List.countP_eq_length_filter]
    congr 1
  calc ((all.map (fun r => getCategory r.type)).dedup.map
          (fun c0 => (applyFilters all active).cardTotal c0)).sum
      = ((all.map (fun r => getCategory r.type)).dedup.map
          (fun c0 => (all.map (fun r => getCategory r.type)).count c0)).sum := by
        congr 1
        exact List.map_congr_left (fun c0 _ => hcount c0)
    _ = (all.map (fun r => getCategory r.type)).length :=
        List.sum_map_count_dedup_eq_length _
    _ = all.length := List.length_map ..

/-! ## Claim C2: the type classifiers -/

/-- C2 as stated is false for the dashboard's `getCategory`: it does not
lower-case its input and its keys are not lowercase — the match is a
case-sensitive `startsWith`. The same type id in different case classifies
differently, which a classifier that lower-cases once could never do. The PNG
generator's classifier, by contrast, is case-insensitive. -/
theorem getCategory_is_case_sensitive :
    getCategory "Microsoft.Storage/storageAccounts" = "Storage" ∧
      getCategory "microsoft.storage/storageaccounts" = "Other" ∧
      categorizeType "microsoft.storage/storageaccounts" = "storage" := by
  refine ⟨by decide, by decide, by decide⟩

/-- Any result of `firstPrefixMatch` is a declared category or the catch-all. -/
theorem firstPrefixMatch_mem (rules : List (String × String)) (t : String)
    (cats : List String) (hr : ∀ pc ∈ rules, pc.2 ∈ cats) (ho : "Other" ∈ cats) :
    firstPrefixMatch rules t ∈ cats := by
  induction rules with
  | nil => exact ho
  | cons pc rest ih =>
      rcases pc with ⟨p, c⟩
      unfold firstPrefixMatch
      by_cases h : startsWithStr t p = true
      · rw [if_pos h]
        exact hr _ (List.mem_cons_self ..)
      · rw [if_neg h]
        exact ih (fun q hq => hr q (List.mem_cons_of_mem _ hq))

/-- Any result of `firstKeywordMatch` is a declared bucket or the catch-all. -/
theorem firstKeywordMatch_mem (rules : List (String × List String)) (t : String)
    (cats : List String) (hr : ∀ ck ∈ rules, ck.1 ∈ cats) (ho : "other" ∈ cats) :
    firstKeywordMatch rules t ∈ cats := by
  induction rules with
  | nil => exact ho
  | cons ck rest ih =>
      rcases ck with ⟨c, kws⟩
      unfold firstKeywordMatch
      by_cases h : kws.any (fun kw => strContains t kw) = true
      · rw [if_pos h]
        exact hr _ (List.mem_cons_self ..)
      · rw [if_neg h]
        exact ih (fun q hq => hr q (List.mem_cons_of_mem _ hq))

/-- First-match-wins for the prefix rules: if no earlier rule's key matches
and this rule's key does, this rule's category is returned. -/
theorem firstPrefixMatch_first (pre : List (String × String)) (p c : String)
    (rest : List (String × String)) (t : String)
    (hpre : ∀ q ∈ pre, startsWithStr t q.1 = false)
    (hp : startsWithStr t p = true) :
    firstPrefixMatch (pre ++ (p, c) :: rest) t = c := by
  induction pre with
  | nil =>
      rw [List.nil_append]
      show (if startsWithStr t p = true then c else firstPrefixMatch rest t) = c
      rw [if_pos hp]
  | cons q0 qrest ih =>
      rw [List.cons_append]
      unfold firstPrefixMatch
      rcases q0 with ⟨q0p, q0c⟩
      rw [if_neg (by rw [hpre _ (List.mem_cons_self ..)]; simp)]
      exact ih (fun q hq => hpre q (List.mem_cons_of_mem _ hq))

/-- First-match-wins for the keyword rules: if no keyword of an earlier rule
occurs in the lowered type and one of this rule's keywords does, this rule's
bucket is returned. -/
theorem firstKeywordMatch_first (pre : List (String × List String)) (c : String)
    (kws : List String) (rest : List (String × List String)) (tl : String)
    (hpre : ∀ q ∈ pre, q.2.any (fun kw => strContains tl kw) = false)
    (hk : kws.any (fun kw => strContains tl kw) = true) :
    firstKeywordMatch (pre ++ (c, kws) :: rest) tl = c := by
  induction pre with
  | nil =>
      rw [List.nil_append]
      show (if (kws.any fun kw => strContains tl kw) = true then c
        else firstKeywordMatch rest tl) = c
      rw [if_pos hk]
  | cons q0 qrest ih =>
      rw [List.cons_append]
      unfold firstKeywordMatch
      rcases q0 with ⟨q0c, q0k⟩
      rw [if_neg (by rw [hpre _ (List.mem_cons_self ..)]; simp)]
      exact ih (fun q hq => hpre q (List.mem_cons_of_mem _ hq))

/-- C2 (amended): both classifiers are total — for every input string,
including the empty string, they return exactly one member of their fixed
category set, falling back to the catch-all — and both resolve overlaps by
declared rule order, the first matching rule winning. But only the PNG
generator's `categorize_resources` lower-cases the type once and matches
lowercase keywords as substrings; the dashboard's `getCategory` matches its
mixed-case keys as case-sensitive prefixes without lower-casing. -/
theorem classifiers_total_first_match_wins (t : String) :
    getCategory t ∈ dashCategories ∧
    categorizeType t ∈ pngCategories ∧
    getCategory "" = "Other" ∧
    categorizeType "" = "other" ∧
    (∀ pre p c rest, serviceCategories = pre ++ (p, c) :: rest →
      (∀ q ∈ pre, startsWithStr t q.1 = false) →
      startsWithStr t p = true → getCategory t = c) ∧
    (∀ pre c kws rest, type_mapping = pre ++ (c, kws) :: rest →
      (∀ q ∈ pre, q.2.any (fun kw => strContains (toLowerStr t) kw) = false) →
      kws.any (fun kw => strContains (toLowerStr t) kw) = true →
      categorizeType t = c) := by
  refine ⟨?_, ?_, by decide, by decide, ?_, ?_⟩
  · exact firstPrefixMatch_mem _ _ _ (by decide) (by decide)
  · exact firstKeywordMatch_mem _ _ _ (by decide) (by decide)
  · intro pre p c rest hsplit hpre hp
    unfold getCategory
    rw [hsplit]
    exact firstPrefixMatch_first pre p c rest t hpre hp
  · intro pre c kws rest hsplit hpre hk
    unfold categorizeType
    rw [hsplit]
    exact firstKeywordMatch_first pre c kws rest (toLowerStr t) hpre hk

/-- Witness for the amended C2: the fifth dashboard rule and the third PNG
rule fire for a Sql type only because every earlier rule fails. -/
theorem classifiers_total_first_match_wins_witness :
    getCategory "Microsoft.Sql/servers" = "Database" ∧
      categorizeType "Microsoft.Sql/servers" = "database" := by
  have h := classifiers_total_first_match_wins "Microsoft.Sql/servers"
  constructor
  · exact h.2.2.2.2.1
      [("Microsoft.Compute", "Compute"), ("Microsoft.Storage", "Storage"),
       ("Microsoft.DBforMySQL", "Database"), ("Microsoft.DBforPostgreSQL", "Database")]
      "Microsoft.Sql" "Database"
      [("Microsoft.Network", "Network"), ("Microsoft.Security", "Security"),
       ("Microsoft.Insights", "Monitoring"), ("Microsoft.OperationalInsights", "Monitoring"),
       ("Microsoft.Logic", "Integration"), ("Microsoft.ApiManagement", "Integration"),
       ("Microsoft.EventGrid", "Integration")]
      rfl (by decide) (by decide)
  · exact h.2.2.2.2.2
      [("compute", ["microsoft.compute", "microsoft.containerservice",
                    "microsoft.containerinstance", "microsoft.web"]),
       ("storage", ["microsoft.storage"])]
      "database"
      ["microsoft.sql", "microsoft.documentdb", "microsoft.dbformysql",
       "microsoft.dbforpostgresql", "microsoft.cache"]
      [("network", ["microsoft.network"]),
       ("security", ["microsoft.keyvault", "microsoft.security"]),
       ("analytics", ["microsoft.synapse", "microsoft.datafactory",
                      "microsoft.databricks", "microsoft.streamanalytics"]),
       ("ai_ml", ["microsoft.cognitiveservices", "microsoft.machinelearningservices"]),
       ("integration", ["microsoft.logic", "microsoft.servicebus",
                        "microsoft.eventgrid", "microsoft.eventhub"]),
       ("monitoring", ["microsoft.insights", "microsoft.operationalinsights"])]
      rfl (by decide) (by decide)

/-! ## Claim C4: the displayed security-rule list -/

instance : IsTotal JsonVal prioLE :=
  ⟨fun a b => le_total (rulePriority a) (rulePriority b)⟩

instance : IsTrans JsonVal prioLE :=
  ⟨fun _ _ _ hab hbc => le_trans hab hbc⟩

/-- Inserting a rule keeps the sequence of rules of any fixed priority: the
insertion point only ever skips rules of strictly smaller priority. -/
theorem filter_orderedInsert (p : Int) (a : JsonVal) (l : List JsonVal) :
    (l.orderedInsert prioLE a).filter (fun x => rulePriority x = p) =
      if rulePriority a = p then
        a :: l.filter (fun x => rulePriority x = p)
      else l.filter (fun x => rulePriority x = p) := by
  induction l with
  | nil =>
      by_cases hap : rulePriority a = p
      · rw [if_pos hap]
        simp [hap]
      · rw [if_neg hap]
        simp [hap]
  | cons b bs ih =>
      show (if prioLE a b then a :: b :: bs else b :: bs.orderedInsert prioLE a).filter _ = _
      by_cases hab : prioLE a b
      · rw [if_pos hab]
        by_cases hap : rulePriority a = p
        · rw [if_pos hap, List.filter_cons_of_pos (by simpa using hap)]
        · rw [if_neg hap, List.filter_cons_of_neg (by simpa using hap)]
      · rw [if_neg hab]
        have hblt : rulePriority b < rulePriority a := by
          exact lt_of_not_le hab
        by_cases hap : rulePriority a = p
        · have hbp : ¬ rulePriority b = p := by
            intro h
            rw [h, hap] at hblt
            exact lt_irrefl p hblt
          rw [if_pos hap, List.filter_cons_of_neg (by simpa using hbp),
            List.filter_cons_of_neg (by simpa using hbp), ih, if_pos hap]
        · rw [if_neg hap]
          by_cases hbp : rulePriority b = p
          · rw [List.filter_cons_of_pos (by simpa using hbp),
              List.filter_cons_of_pos (by simpa using hbp), ih, if_neg hap]
          · rw [List.filter_cons_of_neg (by simpa using hbp),
              List.filter_cons_of_neg (by simpa using hbp), ih, if_neg hap]

/-- Stability of the modelled `Array.prototype.sort`: for every priority
value, the rules carrying that priority appear in the sorted output in
exactly their input order. -/
theorem filter_insertionSort (p : Int) (l : List JsonVal) :
    (l.insertionSort prioLE).filter (fun x => rulePriority x = p) =
      l.filter (fun x => rulePriority x = p) := by
  induction l with
  | nil => rfl
  | cons a l ih =>
      show ((l.insertionSort prioLE).orderedInsert prioLE a).filter _ = _
      rw [filter_orderedInsert]
      by_cases hap : rulePriority a = p
      · rw [if_pos hap, ih, List.filter_cons_of_pos (by simpa using hap)]
      · rw [if_neg hap, ih, List.filter_cons_of_neg (by simpa using hap)]

/-- A rule object as it occurs in an NSG's rule lists. -/
def mkRule (nm : String) (p : Int) : JsonVal :=
  .jobj [("name", .jstr nm), ("properties", .jobj [("priority", .jnum p)])]

/-- Concrete NSG whose explicit rules have priorities `[300, 100]` and whose
default rules have `[100, 200]` — the spec's stability example
`[300, 100, 100, 200]` split across the two lists. -/
def c4nsg : Resource :=
  ⟨"/subscriptions/nsg1", nsgType, "nsg1", "g", "l",
    some (.jobj
      [("securityRules", .jarr [mkRule "A" 300, mkRule "B" 100]),
       ("defaultSecurityRules", .jarr [mkRule "C" 100, mkRule "D" 200])])⟩

/-- Concrete NSG with no rules at all. -/
def c4emptyNsg : Resource :=
  ⟨"/subscriptions/nsg0", nsgType, "nsg0", "g", "l", some (.jobj [])⟩

/-- C4: for every NSG-typed resource of the filtered set, the security view
shows the concatenation of its explicit and default rule lists sorted
ascending by integer priority; the sort is stable — rules of equal priority
keep their input order — and empty rule lists yield an empty display. -/
theorem security_rules_sorted_stably
    (resources : List Resource) (nsg : Resource) (p : Int)
    (hmem : nsg ∈ resources) (hty : nsg.type = nsgType)
    (hpri : (securityRules nsg ++ defaultSecurityRules nsg).all hasIntPriority = true) :
    (nsg.name, displayedRules nsg) ∈ securityView resources ∧
    List.Sorted prioLE (displayedRules nsg) ∧
    (displayedRules nsg).Perm (securityRules nsg ++ defaultSecurityRules nsg) ∧
    (displayedRules nsg).filter (fun rule => rulePriority rule = p) =
      (securityRules nsg ++ defaultSecurityRules nsg).filter
        (fun rule => rulePriority rule = p) ∧
    displayedRules c4emptyNsg = [] := by
  refine ⟨?_, ?_, ?_, ?_, rfl⟩
  · unfold securityView
    apply List.mem_map_of_mem
    exact List.mem_filter.2 ⟨hmem, decide_eq_true hty⟩
  · exact List.sorted_insertionSort prioLE _
  · exact List.perm_insertionSort prioLE _
  · exact filter_insertionSort p _

/-- Witness for C4 at the spec's stability example: priorities
`[300, 100, 100, 200]` display as `[100, 100, 200, 300]` with the two
`100`-rules (`"B"` from the explicit list before `"C"` from the default list)
in input order. -/
theorem security_rules_sorted_stably_witness :
    ((c4nsg.name, displayedRules c4nsg) ∈ securityView [c4nsg] ∧
      List.Sorted prioLE (displayedRules c4nsg) ∧
      (displayedRules c4nsg).Perm (securityRules c4nsg ++ defaultSecurityRules c4nsg) ∧
      (displayedRules c4nsg).filter (fun rule => rulePriority rule = 100) =
        (securityRules c4nsg ++ defaultSecurityRules c4nsg).filter
          (fun rule => rulePriority rule = 100) ∧
      displayedRules c4emptyNsg = []) ∧
    (displayedRules c4nsg).map ruleNameStr = ["B", "C", "D", "A"] ∧
    (displayedRules c4nsg).map rulePriority = [100, 100, 200, 300] :=
  ⟨security_rules_sorted_stably [c4nsg] c4nsg 100 (List.mem_cons_self ..) rfl
      (by decide),
    by decide, by decide⟩

end AzureDash
